import Mathlib

/-!
Verification of the AutoSeat seating-assignment system.

This file gives a shallow embedding, in Lean 4, of the core pure logic of the
repository (seat generation, adjacency-edge generation, layout validation,
cell-range parsing, pair-weight merging, the top-N assignment solve loop with
its no-good cuts, satisfaction metrics, and the exporter's adjacency test),
together with theorems settling the frozen claims about that logic.

Conventions used throughout:
- Python `float` is modelled as `ℚ` (all weights in play are exact decimals).
- Python `int` is modelled as `ℤ` where negative values are reachable, `ℕ`
  where the source only ever produces naturals (loop counters, grid ranges).
- Python dictionaries are modelled either as association lists (when the
  items/iteration view matters) or as functions to `Option` (when only the
  final key-to-value view matters).
- A Python `frozenset` of one or two strings is modelled by a canonically
  sorted pair (`mkPair`), or by its materialised element list when the code
  indexes into `list(p)`.
- Code that can raise an exception is modelled with `Except`/`Option`.
-/

namespace AutoSeat

/-! ## Seating layout (src/utils/seat_layout.py) -/

/-- A seat is a (column, row) coordinate pair, both zero-based. -/
abbrev Seat := Nat × Nat

/-- Embedding of `generate_seats` (seat_layout.py lines 12-26): for each
column `c` in `range(n_cols)`, for each row `r` in `range(rows_per_col[c])`,
append `(c, r)`. -/
def generate_seats (n_cols : Nat) (rows_per_col : List Nat) : List Seat :=
  (List.range n_cols).flatMap (fun c =>
    (List.range (rows_per_col.getD c 0)).map (fun r => (c, r)))

/-- Embedding of the inner helper `has_aisle_between` of
`generate_adjacent_edges` (seat_layout.py lines 45-50): an aisle separates
`col1` and `col2` when some listed aisle pair matches in either order. -/
def has_aisle_between (aisles : List (Nat × Nat)) (col1 col2 : Nat) : Bool :=
  aisles.any (fun lr =>
    (col1 == lr.1 && col2 == lr.2) || (col1 == lr.2 && col2 == lr.1))

/-- The edges contributed by the seat `(c, r)` in the body of the main loop of
`generate_adjacent_edges` (seat_layout.py lines 53-78): right neighbor, upper
neighbor, and (when `include_diag`) the two right diagonals, each emitted as a
bidirectional pair of oriented edges. -/
def seatEdges (n_cols : Nat) (rows_per_col : List Nat) (include_diag : Bool)
    (aisles : List (Nat × Nat)) (c r : Nat) : List (Seat × Seat) :=
  (if c + 1 < n_cols ∧ r < rows_per_col.getD (c+1) 0 ∧
      has_aisle_between aisles c (c+1) = false then
    [((c, r), (c+1, r)), ((c+1, r), (c, r))]
  else []) ++
  (if r + 1 < rows_per_col.getD c 0 then
    [((c, r), (c, r+1)), ((c, r+1), (c, r))]
  else []) ++
  (if include_diag then
    (if c + 1 < n_cols ∧ r + 1 < rows_per_col.getD (c+1) 0 ∧
        has_aisle_between aisles c (c+1) = false then
      [((c, r), (c+1, r+1)), ((c+1, r+1), (c, r))]
    else []) ++
    (if c + 1 < n_cols ∧ 1 ≤ r ∧ r - 1 < rows_per_col.getD (c+1) 0 ∧
        has_aisle_between aisles c (c+1) = false then
      [((c, r), (c+1, r-1)), ((c+1, r-1), (c, r))]
    else [])
  else [])

/-- Embedding of `generate_adjacent_edges` (seat_layout.py lines 29-80): the
concatenation, over all seats in column-major loop order, of each seat's
contributed edges.  The Python default `aisles=None` is the empty list. -/
def generate_adjacent_edges (n_cols : Nat) (rows_per_col : List Nat)
    (include_diag : Bool) (aisles : List (Nat × Nat)) : List (Seat × Seat) :=
  (List.range n_cols).flatMap (fun c =>
    (List.range (rows_per_col.getD c 0)).flatMap (fun r =>
      seatEdges n_cols rows_per_col include_diag aisles c r))

/-- Embedding of `validate_layout` (seat_layout.py lines 181-205). -/
def validate_layout (n_cols : Nat) (rows_per_col : List Nat)
    (num_people : Nat) : Bool × String :=
  if n_cols ≤ 0 then
    (false, "列数必须大于0")
  else if rows_per_col.length ≠ n_cols then
    (false, s!"每列排数配置数量({rows_per_col.length})与列数({n_cols})不匹配")
  else if rows_per_col.any (fun r => r ≤ 0) then
    (false, "每列排数必须大于0")
  else if rows_per_col.sum < num_people then
    (false, s!"座位总数({rows_per_col.sum})少于人数({num_people})")
  else
    (true, "")

/-- Strict column-major order on seats: earlier column, or same column and
earlier row. -/
def seatLt (p q : Seat) : Prop :=
  p.1 < q.1 ∨ (p.1 = q.1 ∧ p.2 < q.2)

lemma mem_generate_seats (n_cols : Nat) (rows_per_col : List Nat) (c r : Nat) :
    (c, r) ∈ generate_seats n_cols rows_per_col ↔
      c < n_cols ∧ r < rows_per_col.getD c 0 := by
  simp only [generate_seats, List.mem_flatMap, List.mem_range, List.mem_map]
  constructor
  · rintro ⟨c', hc', r', hr', h⟩
    obtain ⟨rfl, rfl⟩ := Prod.mk.injEq .. ▸ h
    exact ⟨hc', hr'⟩
  · rintro ⟨hc, hr⟩
    exact ⟨c, hc, r, hr, rfl⟩

lemma generate_seats_pairwise (n_cols : Nat) (rows_per_col : List Nat) :
    (generate_seats n_cols rows_per_col).Pairwise seatLt := by
  induction n_cols with
  | zero => simp [generate_seats]
  | succ n ih =>
    unfold generate_seats at ih ⊢
    rw [List.range_succ, List.flatMap_append]
    rw [List.pairwise_append]
    refine ⟨ih, ?_, ?_⟩
    · simp only [List.flatMap_cons, List.flatMap_nil, List.append_nil]
      have hp : (List.range (rows_per_col.getD n 0)).Pairwise (· < ·) :=
        List.pairwise_lt_range _
      exact hp.map (fun r => (n, r)) (fun a b hab => Or.inr ⟨rfl, hab⟩)
    · intro a ha b hb
      simp only [List.mem_flatMap, List.mem_range, List.mem_map,
        List.flatMap_cons, List.flatMap_nil, List.append_nil] at ha hb
      obtain ⟨c', hc', r', _, rfl⟩ := ha
      obtain ⟨r'', _, rfl⟩ := hb
      exact Or.inl hc'

lemma generate_seats_length (n_cols : Nat) (rows_per_col : List Nat)
    (h : rows_per_col.length = n_cols) :
    (generate_seats n_cols rows_per_col).length = rows_per_col.sum := by
  subst h
  induction rows_per_col using List.reverseRecOn with
  | nil => simp [generate_seats]
  | append_singleton xs x ih =>
    unfold generate_seats at ih ⊢
    rw [List.length_append, List.length_singleton, List.range_succ,
      List.flatMap_append]
    simp only [List.length_append, List.flatMap_cons, List.flatMap_nil,
      List.append_nil, List.sum_append, List.length_map, List.length_range,
      List.sum_cons, List.sum_nil, add_zero]
    congr 1
    · rw [← ih]
      congr 1
      apply List.flatMap_congr
      intro c hc
      rw [List.mem_range] at hc
      rw [List.getD_append _ _ _ _ hc]
    · rw [List.getD_append_right _ _ _ _ (le_refl _)]
      simp

/-- C8: `generate_seats` produces the seat list in column-major order —
concretely, columns=3 with rows-per-column [2,1,2] yields exactly
[(0,0),(0,1),(1,0),(2,0),(2,1)] and index 3 holds (2,0); in general the seats
are exactly the (c, r) with c < n_cols and r < rows_per_col[c], listed in
strictly increasing column-major order. -/
theorem seat_c8_generate_seats_column_major :
    generate_seats 3 [2,1,2] = [(0,0),(0,1),(1,0),(2,0),(2,1)] ∧
    (generate_seats 3 [2,1,2]).getD 3 (0,0) = (2,0) ∧
    (∀ n_cols rows_per_col c r, (c, r) ∈ generate_seats n_cols rows_per_col ↔
      c < n_cols ∧ r < rows_per_col.getD c 0) ∧
    (∀ n_cols rows_per_col,
      (generate_seats n_cols rows_per_col).Pairwise seatLt) :=
  ⟨by decide, by decide, mem_generate_seats, generate_seats_pairwise⟩

/-- A seat (c, r) exists in the layout: its column is in range and its row is
below that column's row count. -/
def seatOk (n_cols : Nat) (rows_per_col : List Nat) (c r : Nat) : Prop :=
  c < n_cols ∧ r < rows_per_col.getD c 0

/-- No aisle is declared between column c and column c+1 (in either order). -/
def noAisle (aisles : List (Nat × Nat)) (c : Nat) : Prop :=
  has_aisle_between aisles c (c+1) = false

/-- The edge set described by the specification: for every existing seat
(c, r), a bidirectional edge rightwards iff column c+1 has a row at index r
and no aisle separates columns c and c+1; a bidirectional edge upwards iff
row r+1 exists in column c (aisles irrelevant); and, when the diagonal flag is
set, bidirectional up-right and down-right edges subject to the same existence
and aisle conditions. -/
def edgeSpec (n_cols : Nat) (rows_per_col : List Nat) (include_diag : Bool)
    (aisles : List (Nat × Nat)) : Seat × Seat → Prop :=
  fun e => match e with
  | ((c1, r1), (c2, r2)) =>
    (c2 = c1 + 1 ∧ r2 = r1 ∧ seatOk n_cols rows_per_col c1 r1 ∧
      seatOk n_cols rows_per_col c2 r2 ∧ noAisle aisles c1) ∨
    (c1 = c2 + 1 ∧ r1 = r2 ∧ seatOk n_cols rows_per_col c2 r2 ∧
      seatOk n_cols rows_per_col c1 r1 ∧ noAisle aisles c2) ∨
    (c2 = c1 ∧ r2 = r1 + 1 ∧ seatOk n_cols rows_per_col c1 r1 ∧
      seatOk n_cols rows_per_col c2 r2) ∨
    (c1 = c2 ∧ r1 = r2 + 1 ∧ seatOk n_cols rows_per_col c2 r2 ∧
      seatOk n_cols rows_per_col c1 r1) ∨
    (include_diag = true ∧ c2 = c1 + 1 ∧ r2 = r1 + 1 ∧
      seatOk n_cols rows_per_col c1 r1 ∧ seatOk n_cols rows_per_col c2 r2 ∧
      noAisle aisles c1) ∨
    (include_diag = true ∧ c1 = c2 + 1 ∧ r1 = r2 + 1 ∧
      seatOk n_cols rows_per_col c2 r2 ∧ seatOk n_cols rows_per_col c1 r1 ∧
      noAisle aisles c2) ∨
    (include_diag = true ∧ c2 = c1 + 1 ∧ r1 = r2 + 1 ∧
      seatOk n_cols rows_per_col c1 r1 ∧ seatOk n_cols rows_per_col c2 r2 ∧
      noAisle aisles c1) ∨
    (include_diag = true ∧ c1 = c2 + 1 ∧ r2 = r1 + 1 ∧
      seatOk n_cols rows_per_col c2 r2 ∧ seatOk n_cols rows_per_col c1 r1 ∧
      noAisle aisles c2)

lemma mem_ite_pair {α : Type} (cond : Prop) [Decidable cond] (x y a : α) :
    (a ∈ if cond then [x, y] else []) ↔ cond ∧ (a = x ∨ a = y) := by
  split <;> simp_all

lemma mem_seatEdges (n_cols : Nat) (rows_per_col : List Nat)
    (include_diag : Bool) (aisles : List (Nat × Nat)) (c r : Nat)
    (e : Seat × Seat) :
    e ∈ seatEdges n_cols rows_per_col include_diag aisles c r ↔
      ((c + 1 < n_cols ∧ r < rows_per_col.getD (c+1) 0 ∧
          has_aisle_between aisles c (c+1) = false) ∧
        (e = ((c, r), (c+1, r)) ∨ e = ((c+1, r), (c, r)))) ∨
      ((r + 1 < rows_per_col.getD c 0) ∧
        (e = ((c, r), (c, r+1)) ∨ e = ((c, r+1), (c, r)))) ∨
      (include_diag = true ∧
        (c + 1 < n_cols ∧ r + 1 < rows_per_col.getD (c+1) 0 ∧
          has_aisle_between aisles c (c+1) = false) ∧
        (e = ((c, r), (c+1, r+1)) ∨ e = ((c+1, r+1), (c, r)))) ∨
      (include_diag = true ∧
        (c + 1 < n_cols ∧ 1 ≤ r ∧ r - 1 < rows_per_col.getD (c+1) 0 ∧
          has_aisle_between aisles c (c+1) = false) ∧
        (e = ((c, r), (c+1, r-1)) ∨ e = ((c+1, r-1), (c, r)))) := by
  unfold seatEdges
  cases include_diag with
  | false =>
    simp only [Bool.false_eq_true, if_false, List.mem_append, mem_ite_pair,
      List.not_mem_nil, false_and, or_false, List.append_nil]
  | true =>
    simp only [if_true, List.mem_append, mem_ite_pair, true_and, or_assoc]

lemma mem_generate_adjacent_edges (n_cols : Nat) (rows_per_col : List Nat)
    (include_diag : Bool) (aisles : List (Nat × Nat)) (e : Seat × Seat) :
    e ∈ generate_adjacent_edges n_cols rows_per_col include_diag aisles ↔
      edgeSpec n_cols rows_per_col include_diag aisles e := by
  obtain ⟨⟨c1, r1⟩, c2, r2⟩ := e
  simp only [generate_adjacent_edges, List.mem_flatMap, List.mem_range]
  constructor
  · rintro ⟨c, hc, r, hr, hmem⟩
    rw [mem_seatEdges] at hmem
    dsimp only [edgeSpec, seatOk, noAisle]
    rcases hmem with ⟨⟨h1, h2, h3⟩, he | he⟩ | ⟨h1, he | he⟩ |
        ⟨hd, ⟨h1, h2, h3⟩, he | he⟩ | ⟨hd, ⟨h1, h2, h3, h4⟩, he | he⟩ <;>
      simp only [Prod.mk.injEq] at he
    · obtain ⟨⟨rfl, rfl⟩, rfl, rfl⟩ := he
      exact .inl ⟨rfl, rfl, ⟨hc, hr⟩, ⟨h1, h2⟩, h3⟩
    · obtain ⟨⟨rfl, rfl⟩, rfl, rfl⟩ := he
      exact .inr (.inl ⟨rfl, rfl, ⟨hc, hr⟩, ⟨h1, h2⟩, h3⟩)
    · obtain ⟨⟨rfl, rfl⟩, rfl, rfl⟩ := he
      exact .inr (.inr (.inl ⟨rfl, rfl, ⟨hc, hr⟩, ⟨hc, h1⟩⟩))
    · obtain ⟨⟨rfl, rfl⟩, rfl, rfl⟩ := he
      exact .inr (.inr (.inr (.inl ⟨rfl, rfl, ⟨hc, hr⟩, ⟨hc, h1⟩⟩)))
    · obtain ⟨⟨rfl, rfl⟩, rfl, rfl⟩ := he
      exact .inr (.inr (.inr (.inr (.inl ⟨hd, rfl, rfl, ⟨hc, hr⟩, ⟨h1, h2⟩, h3⟩))))
    · obtain ⟨⟨rfl, rfl⟩, rfl, rfl⟩ := he
      exact .inr (.inr (.inr (.inr (.inr (.inl
        ⟨hd, rfl, rfl, ⟨hc, hr⟩, ⟨h1, h2⟩, h3⟩)))))
    · obtain ⟨⟨rfl, rfl⟩, rfl, rfl⟩ := he
      exact .inr (.inr (.inr (.inr (.inr (.inr (.inl
        ⟨hd, rfl, by omega, ⟨hc, hr⟩, ⟨h1, h3⟩, h4⟩))))))
    · obtain ⟨⟨rfl, rfl⟩, rfl, rfl⟩ := he
      exact .inr (.inr (.inr (.inr (.inr (.inr (.inr
        ⟨hd, rfl, by omega, ⟨hc, hr⟩, ⟨h1, h3⟩, h4⟩))))))
  · dsimp only [edgeSpec, seatOk, noAisle]
    rintro (⟨h1, h2, ⟨hc1, hr1⟩, ⟨hc2, hr2⟩, ha⟩ |
        ⟨h1, h2, ⟨hc2, hr2⟩, ⟨hc1, hr1⟩, ha⟩ |
        ⟨h1, h2, ⟨hc1, hr1⟩, ⟨hc2, hr2⟩⟩ |
        ⟨h1, h2, ⟨hc2, hr2⟩, ⟨hc1, hr1⟩⟩ |
        ⟨hd, h1, h2, ⟨hc1, hr1⟩, ⟨hc2, hr2⟩, ha⟩ |
        ⟨hd, h1, h2, ⟨hc2, hr2⟩, ⟨hc1, hr1⟩, ha⟩ |
        ⟨hd, h1, h2, ⟨hc1, hr1⟩, ⟨hc2, hr2⟩, ha⟩ |
        ⟨hd, h1, h2, ⟨hc2, hr2⟩, ⟨hc1, hr1⟩, ha⟩)
    · refine ⟨c1, hc1, r1, hr1,
        (mem_seatEdges ..).2 (.inl ⟨⟨?_, ?_, ha⟩, .inl ?_⟩)⟩
      · omega
      · rw [h1, h2] at hr2; exact hr2
      · simp only [Prod.mk.injEq, true_and, and_true]; omega
    · refine ⟨c2, hc2, r2, hr2,
        (mem_seatEdges ..).2 (.inl ⟨⟨?_, ?_, ha⟩, .inr ?_⟩)⟩
      · omega
      · rw [h1, h2] at hr1; exact hr1
      · simp only [Prod.mk.injEq, true_and, and_true]; omega
    · refine ⟨c1, hc1, r1, hr1,
        (mem_seatEdges ..).2 (.inr (.inl ⟨?_, .inl ?_⟩))⟩
      · rw [h1, h2] at hr2; exact hr2
      · simp only [Prod.mk.injEq, true_and, and_true]; omega
    · refine ⟨c2, hc2, r2, hr2,
        (mem_seatEdges ..).2 (.inr (.inl ⟨?_, .inr ?_⟩))⟩
      · rw [h1, h2] at hr1; exact hr1
      · simp only [Prod.mk.injEq, true_and, and_true]; omega
    · refine ⟨c1, hc1, r1, hr1,
        (mem_seatEdges ..).2 (.inr (.inr (.inl ⟨hd, ⟨?_, ?_, ha⟩, .inl ?_⟩)))⟩
      · omega
      · rw [h1, h2] at hr2; exact hr2
      · simp only [Prod.mk.injEq, true_and, and_true]; omega
    · refine ⟨c2, hc2, r2, hr2,
        (mem_seatEdges ..).2 (.inr (.inr (.inl ⟨hd, ⟨?_, ?_, ha⟩, .inr ?_⟩)))⟩
      · omega
      · rw [h1, h2] at hr1; exact hr1
      · simp only [Prod.mk.injEq, true_and, and_true]; omega
    · refine ⟨c1, hc1, r1, hr1,
        (mem_seatEdges ..).2 (.inr (.inr (.inr
          ⟨hd, ⟨?_, ?_, ?_, ha⟩, .inl ?_⟩)))⟩
      · omega
      · omega
      · rw [h1] at hr2
        rw [show r1 - 1 = r2 from by omega]
        exact hr2
      · simp only [Prod.mk.injEq, true_and, and_true]; omega
    · refine ⟨c2, hc2, r2, hr2,
        (mem_seatEdges ..).2 (.inr (.inr (.inr
          ⟨hd, ⟨?_, ?_, ?_, ha⟩, .inr ?_⟩)))⟩
      · omega
      · omega
      · rw [h1] at hr1
        rw [show r2 - 1 = r1 from by omega]
        exact hr1
      · simp only [Prod.mk.injEq, true_and, and_true]; omega

lemma edgeSpec_swap (n_cols : Nat) (rows_per_col : List Nat)
    (include_diag : Bool) (aisles : List (Nat × Nat)) (A B : Seat)
    (h : edgeSpec n_cols rows_per_col include_diag aisles (A, B)) :
    edgeSpec n_cols rows_per_col include_diag aisles (B, A) := by
  obtain ⟨c1, r1⟩ := A
  obtain ⟨c2, r2⟩ := B
  dsimp only [edgeSpec] at h ⊢
  rcases h with h | h | h | h | h | h | h | h
  · exact .inr (.inl h)
  · exact .inl h
  · exact .inr (.inr (.inr (.inl h)))
  · exact .inr (.inr (.inl h))
  · exact .inr (.inr (.inr (.inr (.inr (.inl h)))))
  · exact .inr (.inr (.inr (.inr (.inl h))))
  · exact .inr (.inr (.inr (.inr (.inr (.inr (.inr h))))))
  · exact .inr (.inr (.inr (.inr (.inr (.inr (.inl h))))))

/-- C4: `generate_adjacent_edges` returns exactly the edge set described by
the specification (`edgeSpec`): right edges iff the right column has that row
and no aisle intervenes, vertical edges regardless of aisles, diagonal edges
only under the diagonal flag with the same aisle suppression — each
bidirectional; every produced edge appears with its reverse; and the 2-column
1-row layout with an aisle between columns 0 and 1 yields no edges at all. -/
theorem seat_c4_generate_adjacent_edges_exact :
    (∀ n_cols rows_per_col include_diag aisles e,
      e ∈ generate_adjacent_edges n_cols rows_per_col include_diag aisles ↔
        edgeSpec n_cols rows_per_col include_diag aisles e) ∧
    (∀ n_cols rows_per_col include_diag aisles (A B : Seat),
      (A, B) ∈ generate_adjacent_edges n_cols rows_per_col include_diag aisles →
      (B, A) ∈ generate_adjacent_edges n_cols rows_per_col include_diag aisles) ∧
    generate_adjacent_edges 2 [1, 1] false [(0, 1)] = [] := by
  refine ⟨mem_generate_adjacent_edges, ?_, by decide⟩
  intro n_cols rows_per_col include_diag aisles A B h
  rw [mem_generate_adjacent_edges] at h ⊢
  exact edgeSpec_swap n_cols rows_per_col include_diag aisles A B h

/-- C4 witness: in a one-column two-row layout the upward edge is present, so
its reverse is produced by the symmetry part of the theorem. -/
theorem seat_c4_witness :
    ((0,1),(0,0)) ∈ generate_adjacent_edges 1 [2] false [] :=
  seat_c4_generate_adjacent_edges_exact.2.1 1 [2] false [] (0,0) (0,1)
    (by decide)

/-- C9: if `validate_layout` accepts a configuration (returns `(true, "")`)
then `generate_seats` on that configuration returns a list whose length is the
sum of the rows-per-column values, that length is at least the people count,
and the list has no duplicate coordinate pair. -/
theorem seat_c9_validate_consistent_with_generation
    (n_cols : Nat) (rows_per_col : List Nat) (num_people : Nat)
    (h : validate_layout n_cols rows_per_col num_people = (true, "")) :
    (generate_seats n_cols rows_per_col).length = rows_per_col.sum ∧
    num_people ≤ (generate_seats n_cols rows_per_col).length ∧
    (generate_seats n_cols rows_per_col).Nodup := by
  unfold validate_layout at h
  split_ifs at h with h1 h2 h3 h4
  · exact absurd h (by simp)
  · exact absurd h (by simp)
  · exact absurd h (by simp)
  · exact absurd h (by simp)
  have hlen : (generate_seats n_cols rows_per_col).length = rows_per_col.sum :=
    generate_seats_length n_cols rows_per_col (by omega)
  refine ⟨hlen, by omega, ?_⟩
  refine (generate_seats_pairwise n_cols rows_per_col).imp ?_
  intro a b hab
  rintro rfl
  rcases hab with hlt | ⟨_, hlt⟩ <;> omega

/-- C9 witness: a concrete valid layout, instantiating the theorem. -/
theorem seat_c9_witness :
    (generate_seats 2 [1, 1]).length = [1, 1].sum ∧
    2 ≤ (generate_seats 2 [1, 1]).length ∧
    (generate_seats 2 [1, 1]).Nodup :=
  seat_c9_validate_consistent_with_generation 2 [1, 1] 2 (by decide)

/-! ## Cell-range parsing (src/utils/data_processor.py, parse_cell_range) -/

/-- Bijective base-26 value of an uppercase column string ('A' = 1). -/
def colVal (l : List Char) : Nat :=
  l.foldl (fun a c => a * 26 + (c.toNat - 64)) 0

/-- Model of openpyxl's `column_index_from_string`: uppercase the input and
accept only one to three characters A-Z, yielding the 1-based column number;
any other input raises a ValueError, modelled as `none`. -/
def column_index_from_string (l : List Char) : Option Nat :=
  let u := l.map Char.toUpper
  if u ≠ [] ∧ u.length ≤ 3 ∧ (∀ c ∈ u, 'A' ≤ c ∧ c ≤ 'Z') then
    some (colVal u)
  else none

/-- Decimal value of a digit string. -/
def digitsVal (l : List Char) : Nat :=
  l.foldl (fun a c => a * 10 + (c.toNat - 48)) 0

/-- Model of Python `int(<string>)` on the shapes reachable from cell
references: an optional sign followed by at least one decimal digit; anything
else raises a ValueError, modelled as `none`. -/
def pyInt (l : List Char) : Option Int :=
  match l with
  | [] => none
  | c :: rest =>
    if c = '+' then
      if rest ≠ [] ∧ (∀ ch ∈ rest, ch.isDigit) then
        some ((digitsVal rest : Int))
      else none
    else if c = '-' then
      if rest ≠ [] ∧ (∀ ch ∈ rest, ch.isDigit) then
        some (-(digitsVal rest : Int))
      else none
    else
      if ∀ ch ∈ l, ch.isDigit then some ((digitsVal l : Int)) else none

/-- Model of Python `str.split(sep)` for a single-character separator. -/
def splitOnChar (sep : Char) : List Char → List (List Char)
  | [] => [[]]
  | c :: rest =>
    match splitOnChar sep rest with
    | [] => [[c]]
    | g :: gs => if c = sep then [] :: g :: gs else (c :: g) :: gs

/-- Embedding of `parse_cell_range` (data_processor.py lines 76-119) over the
character list of the range string.  Splits on the colon, separates letters
from the remaining characters of each side, converts the letter block via
`column_index_from_string` and the row block via `int`, all zero-based; any
raised exception is caught and yields the all-absent tuple.  (Python
`str.isalpha` is modelled by `Char.isAlpha`, faithful on ASCII input.) -/
def parse_cell_range (range_spec : List Char) :
    Option Int × Option Int × Option Int × Option Int :=
  if range_spec = [] ∨ ':' ∉ range_spec then (none, none, none, none)
  else
    match splitOnChar ':' range_spec with
    | [start, stop] =>
      let start_col := start.filter Char.isAlpha
      let start_row := start.filter (fun c => !c.isAlpha)
      let end_col := stop.filter Char.isAlpha
      let end_row := stop.filter (fun c => !c.isAlpha)
      match column_index_from_string start_col,
          column_index_from_string end_col with
      | some sc, some ec =>
        match (if start_row = [] then some 0
               else (pyInt start_row).map (· - 1)) with
        | none => (none, none, none, none)
        | some sr =>
          match (if end_row = [] then some none
                 else (pyInt end_row).map (fun v => some (v - 1))) with
          | none => (none, none, none, none)
          | some er => (some ((sc : Int) - 1), some sr, some ((ec : Int) - 1), er)
      | _, _ => (none, none, none, none)
    | _ => (none, none, none, none)

lemma isDigit_not_isAlpha (c : Char) (h : c.isDigit = true) :
    c.isAlpha = false := by
  simp only [Char.isDigit, decide_eq_true_eq, Bool.and_eq_true] at h
  simp only [Char.isAlpha, Char.isUpper, Char.isLower, Bool.or_eq_false_iff,
    Bool.and_eq_false_iff, decide_eq_false_iff_not, not_le]
  obtain ⟨h1, h2⟩ := h
  have h1' : (48 : Nat) ≤ c.val.toNat := h1
  have h2' : c.val.toNat ≤ (57 : Nat) := h2
  constructor <;> [left; left] <;> intro hc
  · exact absurd (show (65 : Nat) ≤ c.val.toNat from hc) (by omega)
  · exact absurd (show (97 : Nat) ≤ c.val.toNat from hc) (by omega)

lemma splitOnChar_ne_nil (sep : Char) (l : List Char) :
    splitOnChar sep l ≠ [] := by
  cases l with
  | nil => simp [splitOnChar]
  | cons c rest =>
    unfold splitOnChar
    cases splitOnChar sep rest with
    | nil => simp
    | cons g gs => dsimp only; split <;> simp

lemma splitOnChar_not_mem (sep : Char) (l : List Char) (h : sep ∉ l) :
    splitOnChar sep l = [l] := by
  induction l with
  | nil => rfl
  | cons c rest ih =>
    have hc : c ≠ sep := fun he => h (he ▸ List.mem_cons_self c rest)
    have hrest : sep ∉ rest := fun hm => h (List.mem_cons_of_mem c hm)
    unfold splitOnChar
    rw [ih hrest]
    dsimp only
    rw [if_neg hc]

lemma splitOnChar_append (sep : Char) (xs ys : List Char) (h : sep ∉ xs) :
    splitOnChar sep (xs ++ sep :: ys) = xs :: splitOnChar sep ys := by
  induction xs with
  | nil =>
    show splitOnChar sep (sep :: ys) = [] :: splitOnChar sep ys
    conv_lhs => unfold splitOnChar
    cases hys : splitOnChar sep ys with
    | nil => exact absurd hys (splitOnChar_ne_nil sep ys)
    | cons g gs => dsimp only; rw [if_pos rfl]
  | cons x xs ih =>
    have hx : x ≠ sep := fun he => h (he ▸ List.mem_cons_self x xs)
    have hxs : sep ∉ xs := fun hm => h (List.mem_cons_of_mem x hm)
    show splitOnChar sep (x :: (xs ++ sep :: ys)) =
      (x :: xs) :: splitOnChar sep ys
    conv_lhs => unfold splitOnChar
    rw [ih hxs]
    dsimp only
    rw [if_neg hx]

lemma pyInt_digits (l : List Char) (h : ∀ c ∈ l, c.isDigit = true)
    (hne : l ≠ []) : pyInt l = some ((digitsVal l : Int)) := by
  cases l with
  | nil => exact absurd rfl hne
  | cons c rest =>
    have hc : c.isDigit = true := h c (List.mem_cons_self c rest)
    have hplus : ¬(c = '+') := by rintro rfl; exact absurd hc (by decide)
    have hminus : ¬(c = '-') := by rintro rfl; exact absurd hc (by decide)
    unfold pyInt
    dsimp only
    rw [if_neg hplus, if_neg hminus, if_pos h]

lemma parse_cell_range_shape (L1 D1 L2 D2 : List Char) (v1 v2 : Nat)
    (hL1 : ∀ c ∈ L1, c.isAlpha = true) (hD1 : ∀ c ∈ D1, c.isDigit = true)
    (hL2 : ∀ c ∈ L2, c.isAlpha = true) (hD2 : ∀ c ∈ D2, c.isDigit = true)
    (hv1 : column_index_from_string L1 = some v1)
    (hv2 : column_index_from_string L2 = some v2) :
    parse_cell_range (L1 ++ D1 ++ ':' :: (L2 ++ D2)) =
      (some ((v1 : Int) - 1),
       some (if D1 = [] then 0 else (digitsVal D1 : Int) - 1),
       some ((v2 : Int) - 1),
       if D2 = [] then none else some ((digitsVal D2 : Int) - 1)) := by
  have hcolon1 : ':' ∉ L1 ++ D1 := by
    intro hmem
    rcases List.mem_append.1 hmem with hm | hm
    · exact absurd (hL1 _ hm) (by decide)
    · exact absurd (hD1 _ hm) (by decide)
  have hcolon2 : ':' ∉ L2 ++ D2 := by
    intro hmem
    rcases List.mem_append.1 hmem with hm | hm
    · exact absurd (hL2 _ hm) (by decide)
    · exact absurd (hD2 _ hm) (by decide)
  have hfa1 : (L1 ++ D1).filter Char.isAlpha = L1 := by
    rw [List.filter_append, List.filter_eq_self.2 hL1,
      List.filter_eq_nil_iff.2 (fun c hc => by simp [isDigit_not_isAlpha c (hD1 c hc)]),
      List.append_nil]
  have hfa2 : (L2 ++ D2).filter Char.isAlpha = L2 := by
    rw [List.filter_append, List.filter_eq_self.2 hL2,
      List.filter_eq_nil_iff.2 (fun c hc => by simp [isDigit_not_isAlpha c (hD2 c hc)]),
      List.append_nil]
  have hfr1 : (L1 ++ D1).filter (fun c => !c.isAlpha) = D1 := by
    rw [List.filter_append,
      List.filter_eq_nil_iff.2 (fun c hc => by simp [hL1 c hc]),
      List.filter_eq_self.2 (fun c hc => by
        simp [isDigit_not_isAlpha c (hD1 c hc)]),
      List.nil_append]
  have hfr2 : (L2 ++ D2).filter (fun c => !c.isAlpha) = D2 := by
    rw [List.filter_append,
      List.filter_eq_nil_iff.2 (fun c hc => by simp [hL2 c hc]),
      List.filter_eq_self.2 (fun c hc => by
        simp [isDigit_not_isAlpha c (hD2 c hc)]),
      List.nil_append]
  have hguard : ¬(L1 ++ D1 ++ ':' :: (L2 ++ D2) = [] ∨
      ':' ∉ L1 ++ D1 ++ ':' :: (L2 ++ D2)) := by
    push_neg
    exact ⟨by simp, by simp⟩
  unfold parse_cell_range
  rw [if_neg hguard, splitOnChar_append ':' (L1 ++ D1) (L2 ++ D2) hcolon1,
    splitOnChar_not_mem ':' (L2 ++ D2) hcolon2]
  dsimp only
  rw [hfa1, hfa2, hfr1, hfr2, hv1, hv2]
  rcases eq_or_ne D1 [] with hD1e | hD1e
  · subst hD1e
    rw [if_pos rfl, if_pos rfl]
    dsimp only
    rcases eq_or_ne D2 [] with hD2e | hD2e
    · subst hD2e
      rw [if_pos rfl, if_pos rfl]
    · rw [if_neg hD2e, if_neg hD2e, pyInt_digits D2 hD2 hD2e]
      rfl
  · rw [if_neg hD1e, if_neg hD1e, pyInt_digits D1 hD1 hD1e]
    rcases eq_or_ne D2 [] with hD2e | hD2e
    · subst hD2e
      rw [if_pos rfl, if_pos rfl]
      rfl
    · rw [if_neg hD2e, if_neg hD2e, pyInt_digits D2 hD2 hD2e]
      rfl

lemma parse_cell_range_total (s : List Char) :
    parse_cell_range s = (none, none, none, none) ∨
    ∃ a b c d, parse_cell_range s = (some a, some b, some c, d) := by
  unfold parse_cell_range
  split
  · exact .inl rfl
  split
  · dsimp only
    split
    · split
      · exact .inl rfl
      split
      · exact .inl rfl
      · exact .inr ⟨_, _, _, _, rfl⟩
    · exact .inl rfl
  · exact .inl rfl

/-- C7: `parse_cell_range` maps "B2:D10" to (1, 1, 3, 9) zero-based; over any
well-formed `<letters><digits>:<letters><digits>` input an absent start row
defaults to row index 0 and an absent end row stays absent; any input that is
empty or colon-free yields the all-absent tuple; and the result is never
partial — either all-absent or with the first three slots present. -/
theorem parse_c7_cell_range :
    parse_cell_range "B2:D10".toList = (some 1, some 1, some 3, some 9) ∧
    (∀ L1 D1 L2 D2 (v1 v2 : Nat), (∀ c ∈ L1, c.isAlpha = true) →
      (∀ c ∈ D1, c.isDigit = true) → (∀ c ∈ L2, c.isAlpha = true) →
      (∀ c ∈ D2, c.isDigit = true) →
      column_index_from_string L1 = some v1 →
      column_index_from_string L2 = some v2 →
      parse_cell_range (L1 ++ D1 ++ ':' :: (L2 ++ D2)) =
        (some ((v1 : Int) - 1),
         some (if D1 = [] then 0 else (digitsVal D1 : Int) - 1),
         some ((v2 : Int) - 1),
         if D2 = [] then none else some ((digitsVal D2 : Int) - 1))) ∧
    (∀ s, s = [] ∨ ':' ∉ s → parse_cell_range s = (none, none, none, none)) ∧
    (∀ s, parse_cell_range s = (none, none, none, none) ∨
      ∃ a b c d, parse_cell_range s = (some a, some b, some c, d)) := by
  refine ⟨by decide, ?_, ?_, parse_cell_range_total⟩
  · intro L1 D1 L2 D2 v1 v2 h1 h2 h3 h4 h5 h6
    exact parse_cell_range_shape L1 D1 L2 D2 v1 v2 h1 h2 h3 h4 h5 h6
  · intro s hs
    unfold parse_cell_range
    rw [if_pos hs]

/-- C7 witness: the general-shape part of the theorem instantiated at
"B:D10" — an absent start row defaults to row index 0. -/
theorem parse_c7_witness :
    parse_cell_range ("B:D10".toList) =
      (some 1, some 0, some 3, some 9) := by
  have h := parse_c7_cell_range.2.1 ['B'] [] ['D'] ['1', '0'] 2 4
    (by decide) (by decide) (by decide) (by decide) (by decide) (by decide)
  simpa using h

/-! ## Pair-weight merging (src/utils/data_processor.py, compute_pair_weights)

A Python `frozenset([name1, name2])` is modelled by the canonically sorted
pair `mkPair name1 name2`; for `name1 = name2` the frozenset is the singleton
`{name1}`, represented by the diagonal pair.  The rank dictionaries are
modelled as association lists in iteration order; ranks are Python ints (ℤ).
`w_weights[rank-1]` / `uw_weights[rank]` use full Python list indexing
(negative indices count from the end, out-of-range raises IndexError),
modelled by `pyGet` and an `Except`-valued result. -/

/-- Canonical representation of `frozenset([a, b])`. -/
def mkPair (a b : String) : String × String :=
  if a ≤ b then (a, b) else (b, a)

/-- Python list indexing `xs[i]`: negative indices count from the end;
out-of-range access raises IndexError, modelled as `none`. -/
def pyGet (xs : List ℚ) (i : Int) : Option ℚ :=
  if 0 ≤ (if i < 0 then i + xs.length else i) ∧
      (if i < 0 then i + xs.length else i) < (xs.length : Int) then
    some (xs.getD (if i < 0 then i + xs.length else i).toNat 0)
  else none

/-- Dictionary update `d[p] = w` on the function view of a dict. -/
def upd (d : (String × String) → Option ℚ) (p : String × String) (w : ℚ) :
    (String × String) → Option ℚ :=
  fun q => if q = p then some w else d q

/-- The willing loop of `compute_pair_weights` (data_processor.py lines
377-380): for each rank with `rank <= len(w_weights)`, write
`w_weights[rank-1]` for each of the rank's pairs (the index is evaluated only
when the rank has at least one pair). -/
def applyWilling (wts : List ℚ) : List (Int × List (String × String)) →
    ((String × String) → Option ℚ) →
    Except Unit ((String × String) → Option ℚ)
  | [], d => .ok d
  | (rank, pairs) :: rest, d =>
    if rank ≤ (wts.length : Int) then
      match pairs with
      | [] => applyWilling wts rest d
      | _ :: _ =>
        match pyGet wts (rank - 1) with
        | none => .error ()
        | some w => applyWilling wts rest (pairs.foldl (fun d p => upd d p w) d)
    else applyWilling wts rest d

/-- The unwilling loop of `compute_pair_weights` (data_processor.py lines
383-387): for each rank with `rank < len(uw_weights)`, write
`uw_weights[rank]` for each of the rank's pairs. -/
def applyUnwilling (wts : List ℚ) : List (Int × List (String × String)) →
    ((String × String) → Option ℚ) →
    Except Unit ((String × String) → Option ℚ)
  | [], d => .ok d
  | (rank, pairs) :: rest, d =>
    if rank < (wts.length : Int) then
      match pairs with
      | [] => applyUnwilling wts rest d
      | _ :: _ =>
        match pyGet wts rank with
        | none => .error ()
        | some w => applyUnwilling wts rest (pairs.foldl (fun d p => upd d p w) d)
    else applyUnwilling wts rest d

/-- The custom-pairs loop of `compute_pair_weights` (data_processor.py lines
390-393): each (name1, name2, weight) triple overwrites the entry of its
unordered pair. -/
def applyCustom (custom : List (String × String × ℚ))
    (d : (String × String) → Option ℚ) : (String × String) → Option ℚ :=
  custom.foldl (fun d t => upd d (mkPair t.1 t.2.1) t.2.2) d

/-- Embedding of `compute_pair_weights` (data_processor.py lines 355-395):
willing ranks, then unwilling ranks, then custom triples, last writer wins.
The Python default `custom_pairs=None` behaves as the empty list. -/
def compute_pair_weights (willing unwilling : List (Int × List (String × String)))
    (w_weights uw_weights : List ℚ) (custom : List (String × String × ℚ)) :
    Except Unit ((String × String) → Option ℚ) :=
  match applyWilling w_weights willing (fun _ => none) with
  | .error e => .error e
  | .ok d1 =>
    match applyUnwilling uw_weights unwilling d1 with
    | .error e => .error e
    | .ok d2 => .ok (applyCustom custom d2)

/-- A rank entry of the willing map that actually writes pair `p`. -/
def activeW (wts : List ℚ) (p : String × String)
    (rp : Int × List (String × String)) : Bool :=
  decide (p ∈ rp.2) && decide (rp.1 ≤ (wts.length : Int))

/-- A rank entry of the unwilling map that actually writes pair `p`. -/
def activeU (wts : List ℚ) (p : String × String)
    (rp : Int × List (String × String)) : Bool :=
  decide (p ∈ rp.2) && decide (rp.1 < (wts.length : Int))

/-- The last willing rank (in iteration order) that writes pair `p`. -/
def lastWillingRank (wts : List ℚ)
    (willing : List (Int × List (String × String))) (p : String × String) :
    Option Int :=
  (willing.reverse.find? (activeW wts p)).map Prod.fst

/-- The last unwilling rank (in iteration order) that writes pair `p`. -/
def lastUnwillingRank (wts : List ℚ)
    (unwilling : List (Int × List (String × String))) (p : String × String) :
    Option Int :=
  (unwilling.reverse.find? (activeU wts p)).map Prod.fst

/-- The weight of the last custom triple whose unordered pair is `p`. -/
def lastCustomWeight (custom : List (String × String × ℚ))
    (p : String × String) : Option ℚ :=
  (custom.reverse.find? (fun t => decide (mkPair t.1 t.2.1 = p))).map
    (fun t => t.2.2)

lemma pyGet_in_range (xs : List ℚ) (i : Int) (h1 : 0 ≤ i)
    (h2 : i < (xs.length : Int)) :
    pyGet xs i = some (xs.getD i.toNat 0) := by
  unfold pyGet
  rw [if_neg (not_lt.2 h1), if_pos ⟨h1, h2⟩]

lemma foldl_upd (pairs : List (String × String)) (w : ℚ)
    (d : (String × String) → Option ℚ) (p : String × String) :
    (pairs.foldl (fun d q => upd d q w) d) p =
      if p ∈ pairs then some w else d p := by
  induction pairs generalizing d with
  | nil => simp
  | cons q qs ih =>
    rw [List.foldl_cons, ih]
    by_cases hqs : p ∈ qs
    · simp [hqs]
    · by_cases hq : p = q <;> simp [hq, hqs, upd]

lemma find?_append_or {α : Type} (l1 l2 : List α) (f : α → Bool) :
    (l1 ++ l2).find? f =
      match l1.find? f with
      | some x => some x
      | none => l2.find? f := by
  induction l1 with
  | nil => simp
  | cons a l1 ih =>
    by_cases h : f a <;> simp [List.find?_cons, h, ih]

lemma lastWillingRank_cons (wts : List ℚ) (rp : Int × List (String × String))
    (rest : List (Int × List (String × String))) (p : String × String) :
    lastWillingRank wts (rp :: rest) p =
      match lastWillingRank wts rest p with
      | some r => some r
      | none => if activeW wts p rp then some rp.1 else none := by
  unfold lastWillingRank
  rw [List.reverse_cons, find?_append_or]
  cases hf : rest.reverse.find? (activeW wts p) with
  | some x => simp
  | none =>
    by_cases h : activeW wts p rp <;> simp [List.find?_cons, h]

lemma lastUnwillingRank_cons (wts : List ℚ) (rp : Int × List (String × String))
    (rest : List (Int × List (String × String))) (p : String × String) :
    lastUnwillingRank wts (rp :: rest) p =
      match lastUnwillingRank wts rest p with
      | some r => some r
      | none => if activeU wts p rp then some rp.1 else none := by
  unfold lastUnwillingRank
  rw [List.reverse_cons, find?_append_or]
  cases hf : rest.reverse.find? (activeU wts p) with
  | some x => simp
  | none =>
    by_cases h : activeU wts p rp <;> simp [List.find?_cons, h]

lemma applyWilling_ok (wts : List ℚ)
    (willing : List (Int × List (String × String)))
    (d : (String × String) → Option ℚ) (hr : ∀ rp ∈ willing, 1 ≤ rp.1) :
    ∃ d', applyWilling wts willing d = .ok d' ∧ ∀ p, d' p =
      match lastWillingRank wts willing p with
      | none => d p
      | some r => pyGet wts (r - 1) := by
  induction willing generalizing d with
  | nil => exact ⟨d, rfl, fun p => by simp [lastWillingRank]⟩
  | cons rp rest ih =>
    obtain ⟨rank, pairs⟩ := rp
    have hr1 : (1 : Int) ≤ rank := hr (rank, pairs) (List.mem_cons_self _ _)
    have hrrest : ∀ x ∈ rest, 1 ≤ x.1 :=
      fun x hx => hr x (List.mem_cons_of_mem _ hx)
    by_cases hcond : rank ≤ (wts.length : Int)
    · cases pairs with
      | nil =>
        obtain ⟨d', h1, h2⟩ := ih d hrrest
        refine ⟨d', ?_, ?_⟩
        · unfold applyWilling
          rw [if_pos hcond]
          exact h1
        · intro p
          rw [lastWillingRank_cons]
          have hact : activeW wts p (rank, ([] : List (String × String))) = false := by
            simp [activeW]
          rw [h2 p]
          cases lastWillingRank wts rest p with
          | none => simp [hact]
          | some r => simp
      | cons q qs =>
        have hget : pyGet wts (rank - 1) =
            some (wts.getD (rank - 1).toNat 0) :=
          pyGet_in_range _ _ (by omega) (by omega)
        obtain ⟨d', h1, h2⟩ :=
          ih ((q :: qs).foldl
            (fun d p => upd d p (wts.getD (rank - 1).toNat 0)) d) hrrest
        refine ⟨d', ?_, ?_⟩
        · unfold applyWilling
          rw [if_pos hcond]
          dsimp only
          rw [hget]
          exact h1
        · intro p
          rw [h2 p, lastWillingRank_cons]
          cases lastWillingRank wts rest p with
          | some r => simp
          | none =>
            dsimp only
            rw [foldl_upd]
            by_cases hp : p ∈ q :: qs
            · have hact : activeW wts p (rank, q :: qs) = true := by
                simp [activeW, hp, hcond]
              rw [if_pos hp, hact, if_pos rfl]
              exact hget.symm
            · have hact : activeW wts p (rank, q :: qs) = false := by
                simp [activeW, hp]
              rw [if_neg hp, hact]
              simp
    · obtain ⟨d', h1, h2⟩ := ih d hrrest
      refine ⟨d', ?_, ?_⟩
      · unfold applyWilling
        rw [if_neg hcond]
        exact h1
      · intro p
        rw [h2 p, lastWillingRank_cons]
        have hact : activeW wts p (rank, pairs) = false := by
          simp [activeW, hcond]
        cases lastWillingRank wts rest p with
        | none => simp [hact]
        | some r => simp

lemma applyUnwilling_ok (wts : List ℚ)
    (unwilling : List (Int × List (String × String)))
    (d : (String × String) → Option ℚ) (hr : ∀ rp ∈ unwilling, 0 ≤ rp.1) :
    ∃ d', applyUnwilling wts unwilling d = .ok d' ∧ ∀ p, d' p =
      match lastUnwillingRank wts unwilling p with
      | none => d p
      | some r => pyGet wts r := by
  induction unwilling generalizing d with
  | nil => exact ⟨d, rfl, fun p => by simp [lastUnwillingRank]⟩
  | cons rp rest ih =>
    obtain ⟨rank, pairs⟩ := rp
    have hr1 : (0 : Int) ≤ rank := hr (rank, pairs) (List.mem_cons_self _ _)
    have hrrest : ∀ x ∈ rest, 0 ≤ x.1 :=
      fun x hx => hr x (List.mem_cons_of_mem _ hx)
    by_cases hcond : rank < (wts.length : Int)
    · cases pairs with
      | nil =>
        obtain ⟨d', h1, h2⟩ := ih d hrrest
        refine ⟨d', ?_, ?_⟩
        · unfold applyUnwilling
          rw [if_pos hcond]
          exact h1
        · intro p
          rw [lastUnwillingRank_cons]
          have hact : activeU wts p (rank, ([] : List (String × String))) = false := by
            simp [activeU]
          rw [h2 p]
          cases lastUnwillingRank wts rest p with
          | none => simp [hact]
          | some r => simp
      | cons q qs =>
        have hget : pyGet wts rank = some (wts.getD rank.toNat 0) :=
          pyGet_in_range _ _ hr1 hcond
        obtain ⟨d', h1, h2⟩ :=
          ih ((q :: qs).foldl
            (fun d p => upd d p (wts.getD rank.toNat 0)) d) hrrest
        refine ⟨d', ?_, ?_⟩
        · unfold applyUnwilling
          rw [if_pos hcond]
          dsimp only
          rw [hget]
          exact h1
        · intro p
          rw [h2 p, lastUnwillingRank_cons]
          cases lastUnwillingRank wts rest p with
          | some r => simp
          | none =>
            dsimp only
            rw [foldl_upd]
            by_cases hp : p ∈ q :: qs
            · have hact : activeU wts p (rank, q :: qs) = true := by
                simp [activeU, hp, hcond]
              rw [if_pos hp, hact, if_pos rfl]
              exact hget.symm
            · have hact : activeU wts p (rank, q :: qs) = false := by
                simp [activeU, hp]
              rw [if_neg hp, hact]
              simp
    · obtain ⟨d', h1, h2⟩ := ih d hrrest
      refine ⟨d', ?_, ?_⟩
      · unfold applyUnwilling
        rw [if_neg hcond]
        exact h1
      · intro p
        rw [h2 p, lastUnwillingRank_cons]
        have hact : activeU wts p (rank, pairs) = false := by
          simp [activeU, hcond]
        cases lastUnwillingRank wts rest p with
        | none => simp [hact]
        | some r => simp

lemma applyCustom_eq (custom : List (String × String × ℚ))
    (d : (String × String) → Option ℚ) (p : String × String) :
    applyCustom custom d p =
      match lastCustomWeight custom p with
      | none => d p
      | some w => some w := by
  induction custom generalizing d with
  | nil => simp [applyCustom, lastCustomWeight]
  | cons t rest ih =>
    unfold applyCustom at ih ⊢
    rw [List.foldl_cons, ih]
    unfold lastCustomWeight
    rw [List.reverse_cons, find?_append_or]
    cases hf : rest.reverse.find? (fun t => decide (mkPair t.1 t.2.1 = p)) with
    | some x => simp
    | none =>
      by_cases h : mkPair t.1 t.2.1 = p
      · simp [List.find?_cons, h, upd]
      · have : p ≠ mkPair t.1 t.2.1 := fun he => h he.symm
        simp [List.find?_cons, h, upd, this]

lemma lastWillingRank_eq_some (wts : List ℚ)
    (willing : List (Int × List (String × String))) (p : String × String)
    (r : Int) (ps : List (String × String)) (hmem : (r, ps) ∈ willing)
    (hp : p ∈ ps) (hle : r ≤ (wts.length : Int))
    (huniq : ∀ rp ∈ willing, p ∈ rp.2 → rp.1 ≤ (wts.length : Int) → rp.1 = r) :
    lastWillingRank wts willing p = some r := by
  unfold lastWillingRank
  cases hf : willing.reverse.find? (activeW wts p) with
  | none =>
    exfalso
    have := List.find?_eq_none.1 hf (r, ps) (List.mem_reverse.2 hmem)
    simp [activeW, hp, hle] at this
  | some x =>
    have hx : activeW wts p x = true := List.find?_some hf
    have hxmem : x ∈ willing := List.mem_reverse.1 (List.mem_of_find?_eq_some hf)
    simp only [activeW, Bool.and_eq_true, decide_eq_true_eq] at hx
    simp [huniq x hxmem hx.1 hx.2]

lemma lastWillingRank_eq_none (wts : List ℚ)
    (willing : List (Int × List (String × String))) (p : String × String)
    (h : ∀ rp ∈ willing, p ∈ rp.2 → ¬(rp.1 ≤ (wts.length : Int))) :
    lastWillingRank wts willing p = none := by
  unfold lastWillingRank
  rw [List.find?_eq_none.2 (fun x hx => by
    have hxm : x ∈ willing := List.mem_reverse.1 hx
    simp only [activeW, Bool.and_eq_true, decide_eq_true_eq, not_and]
    exact fun hpm => h x hxm hpm)]
  rfl

lemma lastUnwillingRank_eq_some (wts : List ℚ)
    (unwilling : List (Int × List (String × String))) (p : String × String)
    (r : Int) (ps : List (String × String)) (hmem : (r, ps) ∈ unwilling)
    (hp : p ∈ ps) (hlt : r < (wts.length : Int))
    (huniq : ∀ rp ∈ unwilling, p ∈ rp.2 → rp.1 < (wts.length : Int) → rp.1 = r) :
    lastUnwillingRank wts unwilling p = some r := by
  unfold lastUnwillingRank
  cases hf : unwilling.reverse.find? (activeU wts p) with
  | none =>
    exfalso
    have := List.find?_eq_none.1 hf (r, ps) (List.mem_reverse.2 hmem)
    simp [activeU, hp, hlt] at this
  | some x =>
    have hx : activeU wts p x = true := List.find?_some hf
    have hxmem : x ∈ unwilling :=
      List.mem_reverse.1 (List.mem_of_find?_eq_some hf)
    simp only [activeU, Bool.and_eq_true, decide_eq_true_eq] at hx
    simp [huniq x hxmem hx.1 hx.2]

lemma lastUnwillingRank_eq_none (wts : List ℚ)
    (unwilling : List (Int × List (String × String))) (p : String × String)
    (h : ∀ rp ∈ unwilling, p ∈ rp.2 → ¬(rp.1 < (wts.length : Int))) :
    lastUnwillingRank wts unwilling p = none := by
  unfold lastUnwillingRank
  rw [List.find?_eq_none.2 (fun x hx => by
    have hxm : x ∈ unwilling := List.mem_reverse.1 hx
    simp only [activeU, Bool.and_eq_true, decide_eq_true_eq, not_and]
    exact fun hpm => h x hxm hpm)]
  rfl

lemma lastCustomWeight_eq_none (custom : List (String × String × ℚ))
    (p : String × String) (h : ∀ t ∈ custom, mkPair t.1 t.2.1 ≠ p) :
    lastCustomWeight custom p = none := by
  unfold lastCustomWeight
  rw [List.find?_eq_none.2 (fun x hx => by
    simpa using h x (List.mem_reverse.1 hx))]
  rfl

/-- C1: `compute_pair_weights` merges willing ranks, unwilling ranks and
custom triples in that order.  Under the data-model rank invariants (willing
ranks ≥ 1, unwilling ranks ≥ 0) it succeeds, and the resulting map satisfies:
a pair written only at willing rank r with r ≤ len(w_weights) gets
w_weights[r-1] (1-indexed); a pair written only at unwilling rank r with
r < len(uw_weights) gets uw_weights[r] (zero-based, the documented
asymmetry); any pair named by a custom triple gets the last such triple's
weight, overriding every rank-based weight; a pair covered by no rule gets no
entry. -/
theorem weights_c1_compute_pair_weights
    (willing unwilling : List (Int × List (String × String)))
    (wts uwts : List ℚ) (custom : List (String × String × ℚ))
    (hw : ∀ rp ∈ willing, 1 ≤ rp.1) (hu : ∀ rp ∈ unwilling, 0 ≤ rp.1) :
    ∃ d, compute_pair_weights willing unwilling wts uwts custom = .ok d ∧
      (∀ r ps p, (r, ps) ∈ willing → p ∈ ps → r ≤ (wts.length : Int) →
        (∀ rp ∈ willing, p ∈ rp.2 → rp.1 ≤ (wts.length : Int) → rp.1 = r) →
        (∀ rp ∈ unwilling, p ∈ rp.2 → ¬(rp.1 < (uwts.length : Int))) →
        (∀ t ∈ custom, mkPair t.1 t.2.1 ≠ p) →
        d p = some (wts.getD (r - 1).toNat 0)) ∧
      (∀ r ps p, (r, ps) ∈ unwilling → p ∈ ps → r < (uwts.length : Int) →
        (∀ rp ∈ unwilling, p ∈ rp.2 → rp.1 < (uwts.length : Int) → rp.1 = r) →
        (∀ t ∈ custom, mkPair t.1 t.2.1 ≠ p) →
        d p = some (uwts.getD r.toNat 0)) ∧
      (∀ p w, lastCustomWeight custom p = some w → d p = some w) ∧
      (∀ p, (∀ rp ∈ willing, p ∈ rp.2 → ¬(rp.1 ≤ (wts.length : Int))) →
        (∀ rp ∈ unwilling, p ∈ rp.2 → ¬(rp.1 < (uwts.length : Int))) →
        (∀ t ∈ custom, mkPair t.1 t.2.1 ≠ p) →
        d p = none) := by
  obtain ⟨d1, h1, hc1⟩ := applyWilling_ok wts willing (fun _ => none) hw
  obtain ⟨d2, h2, hc2⟩ := applyUnwilling_ok uwts unwilling d1 hu
  refine ⟨applyCustom custom d2, ?_, ?_, ?_, ?_, ?_⟩
  · unfold compute_pair_weights
    rw [h1]
    dsimp only
    rw [h2]
  · intro r ps p hmem hp hle huniq hnou hnoc
    rw [applyCustom_eq, lastCustomWeight_eq_none custom p hnoc]
    dsimp only
    rw [hc2 p, lastUnwillingRank_eq_none uwts unwilling p hnou]
    dsimp only
    rw [hc1 p, lastWillingRank_eq_some wts willing p r ps hmem hp hle huniq]
    dsimp only
    exact pyGet_in_range _ _ (by have := hw (r, ps) hmem; dsimp at this; omega)
      (by omega)
  · intro r ps p hmem hp hlt huniq hnoc
    rw [applyCustom_eq, lastCustomWeight_eq_none custom p hnoc]
    dsimp only
    rw [hc2 p, lastUnwillingRank_eq_some uwts unwilling p r ps hmem hp hlt huniq]
    dsimp only
    exact pyGet_in_range _ _ (by have := hu (r, ps) hmem; dsimp at this; omega)
      hlt
  · intro p w hcw
    rw [applyCustom_eq, hcw]
  · intro p hnow hnou hnoc
    rw [applyCustom_eq, lastCustomWeight_eq_none custom p hnoc]
    dsimp only
    rw [hc2 p, lastUnwillingRank_eq_none uwts unwilling p hnou]
    dsimp only
    rw [hc1 p, lastWillingRank_eq_none wts willing p hnow]

/-- C1 witness: the spec's own example − a pair at willing rank 1 with
willing weight 5.0 that is also a custom pair with weight 2.0 ends up with
the custom weight 2.0. -/
theorem weights_c1_witness :
    ∃ d, compute_pair_weights [(1, [("A", "B")])] [] [5] [] [("A", "B", 2)] =
        .ok d ∧ d ("A", "B") = some 2 := by
  obtain ⟨d, hok, _, _, hcustom, _⟩ :=
    weights_c1_compute_pair_weights [(1, [("A", "B")])] [] [5] [] [("A", "B", 2)]
      (by rintro rp hrp; rw [List.mem_singleton] at hrp; subst hrp; norm_num)
      (by rintro rp hrp; simp at hrp)
  have hmk : mkPair "A" "B" = ("A", "B") := by
    unfold mkPair
    rw [if_pos (by rw [String.le_iff_toList_le]; decide)]
  exact ⟨d, hok, hcustom ("A", "B") 2 (by simp [lastCustomWeight, hmk])⟩

/-! ## Optimization engine (src/utils/optimizer.py, solve_top_n_assignments)

The constraint solver (ortools CP-SAT) is external: it is abstracted as an
oracle that, given the constructed model description and the no-good cuts
added so far, either returns a per-person seat-index assignment or fails.
Everything the repository itself computes — the weighted-pair filtering at
line 51, the people/seat size check at line 67, the index-pair conversion at
lines 71-79, the model-term construction at lines 123-131, and the top-N loop
with its no-good cuts at lines 142-193 — is embedded faithfully.

A `pair_weights` dict key (a frozenset of names) is modelled by its
materialised element list, since line 51 evaluates `list(p)[0]` and
`list(p)[1]`: a singleton frozenset (two coinciding names) raises IndexError
there.  The float threshold 1e-9 is modelled as the exact rational. -/

/-- Python exception kinds raised by `solve_top_n_assignments`. -/
inductive PyErr where
  | indexError : PyErr
  | valueError : PyErr
deriving DecidableEq

/-- The weight threshold `1e-9` of optimizer.py line 51. -/
def weightEps : ℚ := 1 / 1000000000

/-- Embedding of line 51:
`[(list(p)[0], list(p)[1], w) for p, w in pair_weights.items() if abs(w) > 1e-9]`.
The filter condition is evaluated before the element expressions, so a
singleton key with weight at most the threshold is skipped silently, while a
singleton key above the threshold raises IndexError. -/
def weightedPairs : List (List String × ℚ) →
    Except PyErr (List (String × String × ℚ))
  | [] => .ok []
  | (p, w) :: rest =>
    if |w| > weightEps then
      match p with
      | a :: b :: _ =>
        match weightedPairs rest with
        | .error e => .error e
        | .ok l => .ok ((a, b, w) :: l)
      | _ => .error .indexError
    else weightedPairs rest

/-- The dict `{p: i for i, p in enumerate(people)}` (line 52): for duplicate
names the later index wins. -/
def name_to_idx (people : List String) (a : String) : Option Nat :=
  (people.enum.reverse.find? (fun ia => ia.2 == a)).map Prod.fst

/-- Embedding of lines 71-79: keep pairs whose names both resolve, drop
equal-index pairs, sort each surviving index pair ascending. -/
def toIdxPairs (people : List String) (wps : List (String × String × ℚ)) :
    List (Nat × Nat × ℚ) :=
  wps.filterMap (fun t =>
    match name_to_idx people t.1, name_to_idx people t.2.1 with
    | some ia, some ib =>
      if ia = ib then none
      else if ia > ib then some (ib, ia, t.2.2) else some (ia, ib, t.2.2)
    | _, _ => none)

/-- The filtered weighted index-pair list of `solve_top_n_assignments`
(`weighted_idx_pairs`), including the IndexError behavior of line 51. -/
def weightedIdxPairs (people : List String)
    (pair_weights : List (List String × ℚ)) :
    Except PyErr (List (Nat × Nat × ℚ)) :=
  match weightedPairs pair_weights with
  | .error e => .error e
  | .ok wps => .ok (toIdxPairs people wps)

/-- The dict `{seat: idx for idx, seat in enumerate(seats)}` (line 121). -/
def seat_to_idx (seats : List Seat) (s : Seat) : Option Nat :=
  (seats.enum.reverse.find? (fun ise => ise.2 == s)).map Prod.fst

/-- The multiplication-equality terms of the objective (lines 123-131): one
(i, j, s, t, w) per weighted index pair and per oriented edge whose two
coordinates both resolve to seat indices. -/
def mTerms (seats : List Seat) (oriented_edges : List (Seat × Seat))
    (wip : List (Nat × Nat × ℚ)) : List (Nat × Nat × Nat × Nat × ℚ) :=
  wip.flatMap (fun t =>
    oriented_edges.filterMap (fun e =>
      match seat_to_idx seats e.1, seat_to_idx seats e.2 with
      | some s, some u => some (t.1, t.2.1, s, u, t.2.2)
      | _, _ => none))

/-- Everything that determines the constructed CP model: the people count
(one exactly-one-seat constraint per person), the seat count (one
at-most-one-person constraint per seat), and the objective terms. -/
structure ModelDesc where
  numPeople : Nat
  numSeats : Nat
  terms : List (Nat × Nat × Nat × Nat × ℚ)
deriving DecidableEq

/-- The abstracted external CP-SAT solver: from the model description and the
no-good cuts added so far, produce a per-person seat-index assignment (the
extracted `assign_idx` of lines 163-169) or fail. -/
def SolverOracle : Type :=
  ModelDesc → List (List Nat) → Option (List Nat)

/-- The top-N loop of lines 142-193: solve, stop on failure, record the
assignment, add its no-good cut, repeat. -/
def solveLoop (oracle : SolverOracle) (desc : ModelDesc) :
    List (List Nat) → Nat → List (List Nat)
  | _, 0 => []
  | cuts, k + 1 =>
    match oracle desc cuts with
    | none => []
    | some a => a :: solveLoop oracle desc (cuts ++ [a]) k

/-- Embedding of `solve_top_n_assignments` (optimizer.py lines 26-198), up to
the solver abstraction: line 51 weighted-pair filtering (which can raise
IndexError), the `P > S` ValueError of lines 67-68, index-pair conversion,
model construction, and the top-N no-good-cut loop.  Results are the
per-person seat-index assignments in solve order. -/
def solve_top_n_assignments (oracle : SolverOracle) (people : List String)
    (seats : List Seat) (pair_weights : List (List String × ℚ))
    (oriented_edges : List (Seat × Seat)) (top_n : Nat) :
    Except PyErr (List (List Nat)) :=
  match weightedPairs pair_weights with
  | .error e => .error e
  | .ok wps =>
    if people.length > seats.length then .error .valueError
    else
      .ok (solveLoop oracle
        ⟨people.length, seats.length,
          mTerms seats oriented_edges (toIdxPairs people wps)⟩ [] top_n)

/-- The no-good cut recorded for assignment `c` is satisfied by assignment
`a`: the number of people placed at exactly the seat `c` gave them is at most
person-count − 1 (an integer inequality; for zero people the cut is
unsatisfiable, matching `sum([]) <= -1`). -/
def cutSat (P : Nat) (a c : List Nat) : Prop :=
  ((((List.range P).filter (fun i => a.getD i 0 = c.getD i 0)).length : Int))
    ≤ (P : Int) - 1

lemma cutSat_irrefl (P : Nat) (a : List Nat) : ¬ cutSat P a a := by
  unfold cutSat
  rw [List.filter_eq_self.2 (fun i _ => by simp)]
  simp

lemma weightedPairs_ok_of_wf (items : List (List String × ℚ))
    (h : ∀ kv ∈ items, 2 ≤ kv.1.length) :
    ∃ l, weightedPairs items = .ok l := by
  induction items with
  | nil => exact ⟨[], rfl⟩
  | cons kv rest ih =>
    obtain ⟨p, w⟩ := kv
    obtain ⟨l, hl⟩ := ih (fun x hx => h x (List.mem_cons_of_mem _ hx))
    have hp : 2 ≤ p.length := h (p, w) (List.mem_cons_self _ _)
    unfold weightedPairs
    by_cases hw : |w| > weightEps
    · rw [if_pos hw]
      match p, hp with
      | a :: b :: tail, _ =>
        dsimp only
        rw [hl]
        exact ⟨_, rfl⟩
    · rw [if_neg hw]
      exact ⟨l, hl⟩

/-- C2: on well-formed pair-weight input (every frozenset key has two
elements, per the data model), `solve_top_n_assignments` raises ValueError
exactly when the people count exceeds the seat count; in that case the result
does not depend on the solver oracle at all (no solve is attempted), and with
people ≤ seats the call returns normally (the error is never raised). -/
theorem opt_c2_oversubscription (people : List String) (seats : List Seat)
    (pair_weights : List (List String × ℚ)) (oriented_edges : List (Seat × Seat))
    (top_n : Nat) (hwf : ∀ kv ∈ pair_weights, 2 ≤ kv.1.length) :
    (people.length > seats.length →
      (∀ oracle, solve_top_n_assignments oracle people seats pair_weights
        oriented_edges top_n = .error .valueError) ∧
      (∀ oracle oracle2, solve_top_n_assignments oracle people seats
          pair_weights oriented_edges top_n =
        solve_top_n_assignments oracle2 people seats pair_weights
          oriented_edges top_n)) ∧
    (people.length ≤ seats.length → ∀ oracle,
      ∃ rs, solve_top_n_assignments oracle people seats pair_weights
        oriented_edges top_n = .ok rs) := by
  obtain ⟨l, hl⟩ := weightedPairs_ok_of_wf pair_weights hwf
  constructor
  · intro hgt
    have herr : ∀ oracle, solve_top_n_assignments oracle people seats
        pair_weights oriented_edges top_n = .error .valueError := by
      intro oracle
      unfold solve_top_n_assignments
      rw [hl]
      dsimp only
      rw [if_pos hgt]
    exact ⟨herr, fun o1 o2 => (herr o1).trans (herr o2).symm⟩
  · intro hle oracle
    unfold solve_top_n_assignments
    rw [hl]
    dsimp only
    rw [if_neg (not_lt.2 hle)]
    exact ⟨_, rfl⟩

/-- C2 witness: 2 people, 1 seat, empty weights — ValueError regardless of
the oracle; and 1 person, 1 seat returns normally. -/
theorem opt_c2_witness :
    solve_top_n_assignments (fun _ _ => none) ["A", "B"] [(0, 0)] [] [] 3 =
        .error .valueError ∧
    ∃ rs, solve_top_n_assignments (fun _ _ => none) ["A"] [(0, 0)] [] [] 3 =
        .ok rs :=
  ⟨((opt_c2_oversubscription ["A", "B"] [(0, 0)] [] [] 3
      (by intro kv hkv; simp at hkv)).1 (by decide)).1 _,
   (opt_c2_oversubscription ["A"] [(0, 0)] [] [] 3
      (by intro kv hkv; simp at hkv)).2 (by decide) _⟩

lemma solveLoop_pairwise_aux (oracle : SolverOracle) (desc : ModelDesc)
    (P : Nat)
    (hor : ∀ cuts a, oracle desc cuts = some a → ∀ c ∈ cuts, cutSat P a c) :
    ∀ k cuts, (solveLoop oracle desc cuts k).Pairwise (· ≠ ·) ∧
      ∀ a ∈ solveLoop oracle desc cuts k, ∀ c ∈ cuts, cutSat P a c := by
  intro k
  induction k with
  | zero => intro cuts; simp [solveLoop]
  | succ k ih =>
    intro cuts
    unfold solveLoop
    cases hsol : oracle desc cuts with
    | none => simp
    | some a =>
      obtain ⟨ihp, ihm⟩ := ih (cuts ++ [a])
      dsimp only
      constructor
      · rw [List.pairwise_cons]
        refine ⟨?_, ihp⟩
        intro b hb
        have hbcut : cutSat P b a :=
          ihm b hb a (List.mem_append_right _ (List.mem_singleton_self a))
        intro he
        exact cutSat_irrefl P a (he ▸ hbcut)
      · intro x hx c hc
        rcases List.mem_cons.1 hx with rfl | hx'
        · exact hor cuts x hsol c hc
        · exact ihm x hx' c (List.mem_append_left _ hc)

/-- C3: under the hypothesis that the solver only returns assignments
satisfying every no-good cut currently in the model, any successful result
list of `solve_top_n_assignments` is pairwise distinct — any two returned
assignments give at least one person a different seat index. -/
theorem opt_c3_distinct_results (oracle : SolverOracle) (people : List String)
    (seats : List Seat) (pair_weights : List (List String × ℚ))
    (oriented_edges : List (Seat × Seat)) (top_n : Nat)
    (hor : ∀ desc cuts a, oracle desc cuts = some a →
      ∀ c ∈ cuts, cutSat people.length a c) :
    ∀ rs, solve_top_n_assignments oracle people seats pair_weights
        oriented_edges top_n = .ok rs →
      rs.Pairwise (· ≠ ·) := by
  intro rs hrs
  unfold solve_top_n_assignments at hrs
  cases hwp : weightedPairs pair_weights with
  | error e => rw [hwp] at hrs; exact absurd hrs (by simp)
  | ok wps =>
    rw [hwp] at hrs
    dsimp only at hrs
    by_cases hgt : people.length > seats.length
    · rw [if_pos hgt] at hrs
      exact absurd hrs (by simp)
    · rw [if_neg hgt] at hrs
      obtain rfl : solveLoop oracle _ [] top_n = rs := by
        injection hrs
      exact (solveLoop_pairwise_aux oracle _ people.length
        (fun cuts a h => hor _ cuts a h) top_n []).1

/-- C3 witness: a concrete two-seat instance with an oracle that answers only
on an empty cut list and provably respects all cuts. -/
theorem opt_c3_witness :
    (solveLoop (fun _ cuts => if cuts = [] then some [0] else none)
        ⟨1, 2, []⟩ [] 2).Pairwise (· ≠ ·) := by
  have h := opt_c3_distinct_results
    (fun _ cuts => if cuts = [] then some [0] else none)
    ["A"] [(0, 0), (0, 1)] [] [] 2
    (by
      intro desc cuts a hsol c hc
      by_cases hcuts : cuts = []
      · subst hcuts; simp at hc
      · dsimp only at hsol
        rw [if_neg hcuts] at hsol
        exact absurd hsol (by simp))
    (solveLoop (fun _ cuts => if cuts = [] then some [0] else none)
        ⟨1, 2, []⟩ [] 2)
    (by rfl)
  exact h

lemma name_to_idx_eq_none (people : List String) (x : String)
    (h : x ∉ people) : name_to_idx people x = none := by
  unfold name_to_idx
  rw [List.find?_eq_none.2 (fun ia hia => by
    have : ia.2 ∈ people :=
      List.snd_mem_of_mem_enum (List.mem_reverse.1 hia)
    simp only [beq_iff_eq]
    intro he
    exact h (he ▸ this))]
  rfl

lemma weightedPairs_cons (p : List String) (w : ℚ)
    (rest : List (List String × ℚ)) :
    weightedPairs ((p, w) :: rest) =
      if |w| > weightEps then
        match p with
        | a :: b :: _ =>
          match weightedPairs rest with
          | .error e => .error e
          | .ok l => .ok ((a, b, w) :: l)
        | _ => .error .indexError
      else weightedPairs rest := rfl

lemma weightedPairs_append (l1 l2 : List (List String × ℚ)) :
    weightedPairs (l1 ++ l2) =
      match weightedPairs l1 with
      | .error e => .error e
      | .ok a =>
        match weightedPairs l2 with
        | .error e => .error e
        | .ok b => .ok (a ++ b) := by
  induction l1 with
  | nil =>
    cases h2 : weightedPairs l2 <;> simp [weightedPairs, h2]
  | cons kv l1 ih =>
    obtain ⟨p, w⟩ := kv
    rw [List.cons_append, weightedPairs_cons p w (l1 ++ l2),
      weightedPairs_cons p w l1]
    by_cases hw : |w| > weightEps
    · rw [if_pos hw, if_pos hw]
      cases p with
      | nil => rfl
      | cons a tail =>
        cases tail with
        | nil => rfl
        | cons b tail2 =>
          dsimp only
          rw [ih]
          cases h1 : weightedPairs l1 <;> cases h2 : weightedPairs l2 <;> simp
    · rw [if_neg hw, if_neg hw]
      exact ih

lemma weightedPairs_extra (people : List String)
    (extra : List (List String × ℚ))
    (hextra : ∀ kv ∈ extra, |kv.2| ≤ weightEps ∨
      (∃ a b, kv.1 = [a, b] ∧ ¬(a ∈ people ∧ b ∈ people))) :
    ∃ lex, weightedPairs extra = .ok lex ∧ toIdxPairs people lex = [] := by
  induction extra with
  | nil => exact ⟨[], rfl, rfl⟩
  | cons kv rest ih =>
    obtain ⟨lex, hlex, hidx⟩ :=
      ih (fun x hx => hextra x (List.mem_cons_of_mem _ hx))
    obtain ⟨p, w⟩ := kv
    by_cases hw : |w| > weightEps
    · rcases hextra (p, w) (List.mem_cons_self _ _) with htiny | ⟨a, b, hab, hnot⟩
      · exact absurd hw (not_lt.2 htiny)
      · dsimp only at hab
        subst hab
        refine ⟨(a, b, w) :: lex, ?_, ?_⟩
        · unfold weightedPairs
          rw [if_pos hw]
          dsimp only
          rw [hlex]
        · unfold toIdxPairs
          rw [List.filterMap_cons]
          have : (match name_to_idx people a, name_to_idx people b with
              | some ia, some ib =>
                if ia = ib then none
                else if ia > ib then some (ib, ia, w) else some (ia, ib, w)
              | _, _ => (none : Option (Nat × Nat × ℚ))) = none := by
            by_cases ha : a ∈ people
            · have hb : b ∉ people := fun hb => hnot ⟨ha, hb⟩
              rw [name_to_idx_eq_none people b hb]
              cases name_to_idx people a <;> rfl
            · rw [name_to_idx_eq_none people a ha]
          rw [this]
          exact hidx
    · refine ⟨lex, ?_, hidx⟩
      unfold weightedPairs
      rw [if_neg hw]
      exact hlex

/-- C10 counterexample: the claim fails for an added entry whose two names
coincide.  Such an entry is the singleton frozenset `{A}`; with weight 5
(above the 1e-9 threshold) line 51 evaluates `list(p)[1]` and raises
IndexError, so the filtered weighted index-pair list is not left identical —
the run without the entry succeeds with an empty list. -/
theorem opt_c10_counterexample :
    weightedIdxPairs ["A"] ([] ++ [(["A"], (5 : ℚ))]) ≠
      weightedIdxPairs ["A"] [] ∧
    weightedIdxPairs ["A"] ([] ++ [(["A"], (5 : ℚ))]) = .error .indexError ∧
    weightedIdxPairs ["A"] [] = .ok [] := by
  have h1 : weightedIdxPairs ["A"] ([] ++ [(["A"], (5 : ℚ))]) =
      .error .indexError := by
    unfold weightedIdxPairs
    rw [List.nil_append, weightedPairs_cons,
      if_pos (show |(5 : ℚ)| > weightEps by norm_num [weightEps])]
  have h2 : weightedIdxPairs ["A"] [] = .ok [] := by rfl
  refine ⟨?_, h1, h2⟩
  intro h
  rw [h1, h2] at h
  exact absurd h (by simp)

/-- C10 (amended): extending `pair_weights` with entries whose weight has
absolute value ≤ 1e-9 (any key), or whose two-element key has names not both
present in the people list, leaves the filtered weighted index-pair list and
the whole solve result unchanged.  (An entry whose two names coincide and
whose weight exceeds the threshold instead raises IndexError at line 51 —
see the counterexample.) -/
theorem opt_c10_irrelevant_entries (people : List String)
    (items extra : List (List String × ℚ))
    (hextra : ∀ kv ∈ extra, |kv.2| ≤ weightEps ∨
      (∃ a b, kv.1 = [a, b] ∧ ¬(a ∈ people ∧ b ∈ people))) :
    weightedIdxPairs people (items ++ extra) = weightedIdxPairs people items ∧
    ∀ (oracle : SolverOracle) (seats : List Seat)
        (oriented_edges : List (Seat × Seat)) (top_n : Nat),
      solve_top_n_assignments oracle people seats (items ++ extra)
          oriented_edges top_n =
        solve_top_n_assignments oracle people seats items oriented_edges
          top_n := by
  obtain ⟨lex, hlex, hidx⟩ := weightedPairs_extra people extra hextra
  have hwp : weightedPairs (items ++ extra) =
      match weightedPairs items with
      | .error e => .error e
      | .ok a => .ok (a ++ lex) := by
    rw [weightedPairs_append]
    cases weightedPairs items <;> simp [hlex]
  have htoidx : ∀ a, toIdxPairs people (a ++ lex) = toIdxPairs people a := by
    intro a
    unfold toIdxPairs at hidx ⊢
    rw [List.filterMap_append, hidx, List.append_nil]
  constructor
  · unfold weightedIdxPairs
    rw [hwp]
    cases weightedPairs items with
    | error e => rfl
    | ok a => dsimp only; rw [htoidx a]
  · intro oracle seats oriented_edges top_n
    unfold solve_top_n_assignments
    rw [hwp]
    cases weightedPairs items with
    | error e => rfl
    | ok a =>
      dsimp only
      rw [htoidx a]

/-- C10 witness: adding a tiny-weight entry and an off-list pair leaves the
filtered index-pair list of a concrete instance unchanged. -/
theorem opt_c10_witness :
    weightedIdxPairs ["A", "B"]
        ([(["A", "B"], 5)] ++ [(["A", "B"], 0), (["C", "D"], 7)]) =
      weightedIdxPairs ["A", "B"] [(["A", "B"], 5)] := by
  refine (opt_c10_irrelevant_entries ["A", "B"] [(["A", "B"], 5)]
    [(["A", "B"], 0), (["C", "D"], 7)] ?_).1
  intro kv hkv
  rcases List.mem_cons.1 hkv with rfl | hkv'
  · exact .inl (by norm_num [weightEps])
  · rcases List.mem_singleton.1 hkv' with rfl
    exact .inr ⟨"C", "D", rfl, by
      rintro ⟨hc, _⟩
      simp at hc⟩

/-! ## Export renderer adjacency (src/utils/exporter.py, are_seats_adjacent)

The same helper is defined twice, textually identically, at exporter.py lines
179-199 and 357-377; this is the single embedding of both.  It takes neither
the diagonal-adjacency flag nor the solver's edge list: its independence from
them holds by construction. -/

/-- Embedding of the exporter's `are_seats_adjacent`: both persons must be in
the assignment dict, both seat indices must resolve through the
seat-positions dict (index < number of seats), and the two coordinates must
satisfy |Δcol| ≤ 1, |Δrow| ≤ 1 and Δcol + Δrow > 0. -/
def are_seats_adjacent (assignment : List (String × Nat))
    (seats : List (Int × Int)) (person1 person2 : String) : Bool :=
  match List.lookup person1 assignment, List.lookup person2 assignment with
  | some seat1_idx, some seat2_idx =>
    match seats[seat1_idx]?, seats[seat2_idx]? with
    | some s1, some s2 =>
      decide ((s1.1 - s2.1).natAbs ≤ 1 ∧ (s1.2 - s2.2).natAbs ≤ 1 ∧
        0 < (s1.1 - s2.1).natAbs + (s1.2 - s2.2).natAbs)
    | _, _ => false
  | _, _ => false

/-- C6: the exporter's relationship-line adjacency test holds iff both
persons are in the assignment, both seat indices resolve to coordinates, and
those coordinates are at Chebyshev distance exactly one — diagonal neighbors
always count, whatever the grid's diagonal setting or the solver edge list
(neither is even an input of the function). -/
theorem export_c6_are_seats_adjacent (assignment : List (String × Nat))
    (seats : List (Int × Int)) (person1 person2 : String) :
    are_seats_adjacent assignment seats person1 person2 = true ↔
      ∃ i1 i2 s1 s2,
        List.lookup person1 assignment = some i1 ∧
        List.lookup person2 assignment = some i2 ∧
        seats[i1]? = some s1 ∧ seats[i2]? = some s2 ∧
        max (s1.1 - s2.1).natAbs (s1.2 - s2.2).natAbs = 1 := by
  unfold are_seats_adjacent
  constructor
  · intro hd
    cases h1 : List.lookup person1 assignment with
    | none => rw [h1] at hd; simp at hd
    | some i1 =>
      cases h2 : List.lookup person2 assignment with
      | none => rw [h1, h2] at hd; simp at hd
      | some i2 =>
        rw [h1, h2] at hd
        dsimp only at hd
        cases h3 : seats[i1]? with
        | none => rw [h3] at hd; simp at hd
        | some s1 =>
          cases h4 : seats[i2]? with
          | none => rw [h3, h4] at hd; simp at hd
          | some s2 =>
            rw [h3, h4] at hd
            dsimp only at hd
            rw [decide_eq_true_eq] at hd
            exact ⟨i1, i2, s1, s2, rfl, rfl, h3, h4, by omega⟩
  · rintro ⟨i1, i2, s1, s2, hi1, hi2, hs1, hs2, hmax⟩
    rw [hi1, hi2]
    dsimp only
    rw [hs1, hs2]
    dsimp only
    rw [decide_eq_true_eq]
    omega

/-- C6 witness: two persons on diagonal seats (0,0) and (1,1) are adjacent
for the renderer. -/
theorem export_c6_witness :
    are_seats_adjacent [("A", 0), ("B", 1)] [(0, 0), (1, 1)] "A" "B" = true :=
  (export_c6_are_seats_adjacent [("A", 0), ("B", 1)] [(0, 0), (1, 1)]
    "A" "B").2 ⟨0, 1, (0, 0), (1, 1), by decide, by decide, by decide,
      by decide, by decide⟩

/-! ## Satisfaction metrics (src/utils/optimizer.py, compute_satisfaction_metrics) -/

/-- The frozenset of two seat indices, canonically (min, max). -/
def idxPair (i j : Nat) : Nat × Nat := (min i j, max i j)

/-- The seat-index adjacency set built at optimizer.py lines 228-234: for
each oriented edge whose two coordinates occur in the seat list (both
`seats.index` calls succeed), the unordered pair of their first indices;
edges with unresolvable coordinates are skipped. -/
def adjacentSeatPairs (seats : List Seat) (oriented_edges : List (Seat × Seat)) :
    List (Nat × Nat) :=
  oriented_edges.filterMap (fun e =>
    if e.1 ∈ seats ∧ e.2 ∈ seats then
      some (idxPair (seats.indexOf e.1) (seats.indexOf e.2))
    else none)

/-- A pair of persons is satisfied under an assignment: both are assigned and
their seat indices form a pair of the adjacency set. -/
def pairSatisfied (assignment : List (String × Nat)) (adj : List (Nat × Nat))
    (pair : String × String) : Bool :=
  match List.lookup pair.1 assignment, List.lookup pair.2 assignment with
  | some s1, some s2 => decide (idxPair s1 s2 ∈ adj)
  | _, _ => false

/-- The set of members of the pairs of a list (union of the two-element
frozensets). -/
def pairMembers (l : List (String × String)) : Finset String :=
  l.foldr (fun p s => insert p.1 (insert p.2 s)) ∅

/-- Embedding of `compute_satisfaction_metrics` (optimizer.py lines 201-278),
mirroring the accumulation loops: the satisfied-people set and satisfied-pair
counter over `positive_pairs`, the total-people union, and the
first-preference rate over rank-1 willing pairs (0 when the rank map is
absent/falsy, has no key 1, or rank 1 is empty). -/
def compute_satisfaction_metrics (assignment : List (String × Nat))
    (people : List String) (seats : List Seat)
    (positive_pairs : List (String × String))
    (oriented_edges : List (Seat × Seat))
    (willing_pairs_by_rank : Option (List (Int × List (String × String)))) :
    Nat × Nat × Nat × ℚ :=
  let adj := adjacentSeatPairs seats oriented_edges
  let res := positive_pairs.foldl (fun acc pair =>
    match List.lookup pair.1 assignment, List.lookup pair.2 assignment with
    | some s1, some s2 =>
      if idxPair s1 s2 ∈ adj then
        (insert pair.1 (insert pair.2 acc.1), acc.2 + 1)
      else acc
    | _, _ => acc) ((∅ : Finset String), 0)
  let total_people_with_pref :=
    if positive_pairs.isEmpty then 0 else (pairMembers positive_pairs).card
  let first_preference_rate : ℚ :=
    match willing_pairs_by_rank with
    | none => 0
    | some wpbr =>
      match List.lookup 1 wpbr with
      | none => 0
      | some first_rank_pairs =>
        let satisfied_first : Nat := first_rank_pairs.foldl (fun n pair =>
          match List.lookup pair.1 assignment, List.lookup pair.2 assignment with
          | some s1, some s2 => if idxPair s1 s2 ∈ adj then n + 1 else n
          | _, _ => n) 0
        if 0 < first_rank_pairs.length then
          ((satisfied_first : ℚ) / first_rank_pairs.length) * 100
        else 0
  (res.1.card, total_people_with_pref, res.2, first_preference_rate)

lemma foldl_metrics (assignment : List (String × Nat)) (adj : List (Nat × Nat))
    (l : List (String × String)) (s : Finset String) (n : Nat) :
    l.foldl (fun acc pair =>
      match List.lookup pair.1 assignment, List.lookup pair.2 assignment with
      | some s1, some s2 =>
        if idxPair s1 s2 ∈ adj then
          (insert pair.1 (insert pair.2 acc.1), acc.2 + 1)
        else acc
      | _, _ => acc) (s, n) =
    (s ∪ pairMembers (l.filter (pairSatisfied assignment adj)),
     n + (l.filter (pairSatisfied assignment adj)).length) := by
  induction l generalizing s n with
  | nil => simp [pairMembers]
  | cons p rest ih =>
    rw [List.foldl_cons]
    by_cases hsat : pairSatisfied assignment adj p = true
    · have hstep : (match List.lookup p.1 assignment, List.lookup p.2 assignment with
          | some s1, some s2 =>
            if idxPair s1 s2 ∈ adj then
              (insert p.1 (insert p.2 s), n + 1)
            else (s, n)
          | _, _ => (s, n)) = (insert p.1 (insert p.2 s), n + 1) := by
        unfold pairSatisfied at hsat
        cases h1 : List.lookup p.1 assignment with
        | none => rw [h1] at hsat; simp at hsat
        | some s1 =>
          cases h2 : List.lookup p.2 assignment with
          | none => rw [h1, h2] at hsat; simp at hsat
          | some s2 =>
            rw [h1, h2] at hsat
            rw [decide_eq_true_eq] at hsat
            dsimp only
            rw [if_pos hsat]
      rw [hstep, ih, List.filter_cons_of_pos hsat]
      refine Prod.ext ?_ ?_
      · show insert p.1 (insert p.2 s) ∪ _ = s ∪ pairMembers (p :: _)
        unfold pairMembers
        rw [List.foldr_cons]
        ext x
        simp only [Finset.mem_union, Finset.mem_insert]
        tauto
      · show n + 1 + _ = n + (_ + 1)
        omega
    · have hstep : (match List.lookup p.1 assignment, List.lookup p.2 assignment with
          | some s1, some s2 =>
            if idxPair s1 s2 ∈ adj then
              (insert p.1 (insert p.2 s), n + 1)
            else (s, n)
          | _, _ => (s, n)) = (s, n) := by
        unfold pairSatisfied at hsat
        cases h1 : List.lookup p.1 assignment with
        | none => rfl
        | some s1 =>
          cases h2 : List.lookup p.2 assignment with
          | none => rfl
          | some s2 =>
            rw [h1, h2] at hsat
            simp only [decide_eq_true_eq] at hsat
            dsimp only
            rw [if_neg hsat]
      rw [hstep, ih, List.filter_cons_of_neg (by simpa using hsat)]

lemma foldl_count (assignment : List (String × Nat)) (adj : List (Nat × Nat))
    (l : List (String × String)) (n : Nat) :
    l.foldl (fun n pair =>
      match List.lookup pair.1 assignment, List.lookup pair.2 assignment with
      | some s1, some s2 => if idxPair s1 s2 ∈ adj then n + 1 else n
      | _, _ => n) n =
    n + (l.filter (pairSatisfied assignment adj)).length := by
  induction l generalizing n with
  | nil => simp
  | cons p rest ih =>
    rw [List.foldl_cons]
    by_cases hsat : pairSatisfied assignment adj p = true
    · have hstep : (match List.lookup p.1 assignment, List.lookup p.2 assignment with
          | some s1, some s2 => if idxPair s1 s2 ∈ adj then n + 1 else n
          | _, _ => n) = n + 1 := by
        unfold pairSatisfied at hsat
        cases h1 : List.lookup p.1 assignment with
        | none => rw [h1] at hsat; simp at hsat
        | some s1 =>
          cases h2 : List.lookup p.2 assignment with
          | none => rw [h1, h2] at hsat; simp at hsat
          | some s2 =>
            rw [h1, h2] at hsat
            rw [decide_eq_true_eq] at hsat
            dsimp only
            rw [if_pos hsat]
      rw [hstep, ih, List.filter_cons_of_pos hsat, List.length_cons]
      omega
    · have hstep : (match List.lookup p.1 assignment, List.lookup p.2 assignment with
          | some s1, some s2 => if idxPair s1 s2 ∈ adj then n + 1 else n
          | _, _ => n) = n := by
        unfold pairSatisfied at hsat
        cases h1 : List.lookup p.1 assignment with
        | none => rfl
        | some s1 =>
          cases h2 : List.lookup p.2 assignment with
          | none => rfl
          | some s2 =>
            rw [h1, h2] at hsat
            simp only [decide_eq_true_eq] at hsat
            dsimp only
            rw [if_neg hsat]
      rw [hstep, ih, List.filter_cons_of_neg (by simpa using hsat)]

/-- C5: `compute_satisfaction_metrics` returns exactly the 4-tuple
(satisfied-people count, total-people-with-preference count, satisfied-pair
count, first-preference rate): a positive pair is satisfied iff both members
are assigned and their seat indices form an adjacency pair resolved from the
edge list; the first component is the size of the union of members of the
satisfied pairs, the second the size of the union of members of all supplied
pairs, the third the number of satisfied pairs, and the rate is the
percentage of rank-1 willing pairs placed adjacently (0 when rank 1 is empty
or the rank map absent).  In the §8.9 scenario the first three components
are (2, 2, 1). -/
theorem opt_c5_satisfaction_metrics :
    (∀ (assignment : List (String × Nat)) (people : List String)
        (seats : List Seat) (positive_pairs : List (String × String))
        (oriented_edges : List (Seat × Seat))
        (wpbr : Option (List (Int × List (String × String)))),
      compute_satisfaction_metrics assignment people seats positive_pairs
          oriented_edges wpbr =
        ((pairMembers (positive_pairs.filter
            (pairSatisfied assignment
              (adjacentSeatPairs seats oriented_edges)))).card,
         (pairMembers positive_pairs).card,
         (positive_pairs.filter (pairSatisfied assignment
            (adjacentSeatPairs seats oriented_edges))).length,
         match wpbr with
         | none => 0
         | some m =>
           match List.lookup 1 m with
           | none => 0
           | some first =>
             if 0 < first.length then
               (((first.filter (pairSatisfied assignment
                   (adjacentSeatPairs seats oriented_edges))).length : ℚ) /
                 first.length) * 100
             else 0)) ∧
    compute_satisfaction_metrics [("A", 0), ("B", 1), ("C", 2), ("D", 3)]
        ["A", "B", "C", "D"] (generate_seats 2 [2, 2]) [("A", "B")]
        (generate_adjacent_edges 2 [2, 2] false []) none =
      (2, 2, 1, 0) := by
  constructor
  · intro assignment people seats positive_pairs oriented_edges wpbr
    unfold compute_satisfaction_metrics
    simp only [foldl_metrics, foldl_count, Finset.empty_union, Nat.zero_add]
    by_cases he : positive_pairs.isEmpty
    · rw [List.isEmpty_iff] at he
      subst he
      simp [pairMembers]
    · simp [he]
  · decide

end AutoSeat
